import Mathlib

/-!
Verification of the `workerai` Cloudflare worker (`src/worker/index.ts`)
against its natural-language specification.

Each definition below is a shallow embedding of a concrete piece of the
worker source; line numbers in the comments refer to `src/worker/index.ts`.
-/

/-! ## Persisted messages (D1 `messages` table)

`POST /api/protected/chat/completions` (lines 222-227) inserts a row
`(id, session_id, role, content, created_at)` with `created_at = Date.now()`;
a row insert appends to the table in rowid order.
`GET /api/protected/sessions/:id` (lines 345-347) reads the rows back with
`SELECT * FROM messages WHERE session_id = ? ORDER BY created_at ASC`.
-/

structure MsgRow where
  id : String
  session_id : String
  role : String
  content : String
  created_at : Nat
deriving DecidableEq, Repr

/-- The `INSERT INTO messages ...` statement: one new row at the end of the
table (rowid order). -/
def appendMessage (db : List MsgRow) (m : MsgRow) : List MsgRow :=
  db ++ [m]

/-- The `WHERE session_id = ?` filter of the load query, in table order. -/
def msgsOf (db : List MsgRow) (sid : String) : List MsgRow :=
  db.filter (fun m => m.session_id == sid)

/-- Semantics of `SELECT * FROM messages WHERE session_id = ? ORDER BY
created_at ASC`: SQL guarantees that the result is some permutation of the
filtered rows that is non-strictly sorted on `created_at`; the relative
order of rows with equal `created_at` is not specified. -/
def IsLoadResult (db : List MsgRow) (sid : String) (out : List MsgRow) : Prop :=
  out.Perm (msgsOf db sid) ∧ out.Sorted (fun a b => a.created_at ≤ b.created_at)

/-- A non-strictly sorted permutation of a list with strictly increasing keys
is that list itself. -/
theorem sorted_perm_eq_of_strict {α : Type} (t : α → Nat) :
    ∀ {r l : List α}, l.Perm r →
      l.Sorted (fun a b => t a ≤ t b) →
      r.Pairwise (fun a b => t a < t b) → l = r := by
  intro r
  induction r with
  | nil =>
    intro l hp _ _
    exact hp.eq_nil
  | cons x rs ih =>
    intro l hp hs hr
    match l with
    | [] => exact absurd hp.symm.eq_nil (by simp)
    | y :: ls =>
      have hxmin : ∀ z ∈ rs, t x < t z := (List.pairwise_cons.mp hr).1
      have hymin : ∀ z ∈ ls, t y ≤ t z := (List.sorted_cons.mp hs).1
      have hyx : y = x := by
        by_contra hne
        have hymem : y ∈ x :: rs := hp.mem_iff.mp (by simp)
        have hxy : t x < t y := hxmin y (by
          rcases List.mem_cons.mp hymem with h | h
          · exact absurd h hne
          · exact h)
        have hxmem : x ∈ y :: ls := hp.mem_iff.mpr (by simp)
        have hyx' : t y ≤ t x := by
          rcases List.mem_cons.mp hxmem with h | h
          · exact absurd h.symm hne
          · exact hymin x h
        omega
      subst hyx
      have hp' : ls.Perm rs := hp.cons_inv
      have := ih hp' (List.sorted_cons.mp hs).2 (List.pairwise_cons.mp hr).2
      rw [this]

theorem msgsOf_append (db : List MsgRow) (m : MsgRow) (sid : String)
    (h : m.session_id = sid) :
    msgsOf (appendMessage db m) sid = msgsOf db sid ++ [m] := by
  simp [msgsOf, appendMessage, List.filter_append, h]

/-- C1 (counterexample). Two messages of session `"s"` appended in order
`m1` then `m2`, both with `created_at = 5` (two appends in the same
millisecond).  `[m2, m1]` is a legitimate result of
`ORDER BY created_at ASC` on the appended table, yet it is not
`loadHistory(s) ++ [m2]`: the only legitimate load of the original table is
`[m1]`, and `[m2, m1] ≠ [m1] ++ [m2]`.  So the round-trip law fails when two
appends fall in the same millisecond. -/
theorem c1_roundtrip_cex :
    IsLoadResult
      (appendMessage [⟨"m1", "s", "user", "a", 5⟩] ⟨"m2", "s", "user", "b", 5⟩)
      "s" [⟨"m2", "s", "user", "b", 5⟩, ⟨"m1", "s", "user", "a", 5⟩]
    ∧ IsLoadResult [⟨"m1", "s", "user", "a", 5⟩] "s" [⟨"m1", "s", "user", "a", 5⟩]
    ∧ ([⟨"m2", "s", "user", "b", 5⟩, ⟨"m1", "s", "user", "a", 5⟩] :
        List MsgRow) ≠ [⟨"m1", "s", "user", "a", 5⟩] ++ [⟨"m2", "s", "user", "b", 5⟩] := by
  refine ⟨⟨?_, ?_⟩, ⟨?_, ?_⟩, ?_⟩
  · exact List.Perm.swap _ _ _
  · simp [List.Sorted]
  · simp [msgsOf]
  · simp [List.Sorted]
  · decide

/-- C1 (amended). When the already-stored messages of the session have
strictly increasing `created_at` and the new message's `created_at` is
strictly later than all of them (appends in distinct milliseconds), the
round trip holds: every legitimate load of the appended table equals the
(unique) legitimate load of the original table with the new message
appended at the end. -/
theorem c1_roundtrip_amended (db : List MsgRow) (m : MsgRow) (sid : String)
    (hsid : m.session_id = sid)
    (hstrict : (msgsOf db sid).Pairwise (fun a b => a.created_at < b.created_at))
    (hlast : ∀ x ∈ msgsOf db sid, x.created_at < m.created_at)
    (out out' : List MsgRow)
    (hout : IsLoadResult (appendMessage db m) sid out)
    (hout' : IsLoadResult db sid out') :
    out = out' ++ [m] := by
  have hfilter := msgsOf_append db m sid hsid
  have hstrict' : (msgsOf db sid ++ [m]).Pairwise
      (fun a b => a.created_at < b.created_at) := by
    refine List.pairwise_append.mpr ⟨hstrict, by simp, ?_⟩
    intro a ha b hb
    simp only [List.mem_singleton] at hb
    subst hb
    exact hlast a ha
  have h1 : out = msgsOf db sid ++ [m] := by
    refine sorted_perm_eq_of_strict (fun r => r.created_at) ?_ hout.2 hstrict'
    rw [← hfilter]; exact hout.1
  have h2 : out' = msgsOf db sid :=
    sorted_perm_eq_of_strict (fun r => r.created_at) hout'.1 hout'.2 hstrict
  rw [h1, h2]

/-- C1 witness: the amended round trip at a concrete table. -/
theorem c1_roundtrip_amended_witness :
    ((⟨"m2", "s", "user", "b", 9⟩ : MsgRow).session_id = "s"
      ∧ (msgsOf [⟨"m1", "s", "user", "a", 1⟩] "s").Pairwise
          (fun a b => a.created_at < b.created_at)
      ∧ (∀ x ∈ msgsOf [⟨"m1", "s", "user", "a", 1⟩] "s",
          x.created_at < (⟨"m2", "s", "user", "b", 9⟩ : MsgRow).created_at)
      ∧ IsLoadResult
          (appendMessage [⟨"m1", "s", "user", "a", 1⟩] ⟨"m2", "s", "user", "b", 9⟩)
          "s" [⟨"m1", "s", "user", "a", 1⟩, ⟨"m2", "s", "user", "b", 9⟩]
      ∧ IsLoadResult [⟨"m1", "s", "user", "a", 1⟩] "s" [⟨"m1", "s", "user", "a", 1⟩])
    ∧ [⟨"m1", "s", "user", "a", 1⟩, ⟨"m2", "s", "user", "b", 9⟩]
        = [⟨"m1", "s", "user", "a", 1⟩] ++ [(⟨"m2", "s", "user", "b", 9⟩ : MsgRow)] := by
  refine ⟨⟨rfl, ?_, ?_, ⟨?_, ?_⟩, ⟨?_, ?_⟩⟩, ?_⟩
  · simp [msgsOf]
  · intro x hx
    simp [msgsOf] at hx
    subst hx
    decide
  · simp [msgsOf, appendMessage]
  · simp [List.Sorted]
  · simp [msgsOf]
  · simp [List.Sorted]
  · exact c1_roundtrip_amended [⟨"m1", "s", "user", "a", 1⟩] ⟨"m2", "s", "user", "b", 9⟩
      "s" rfl (by simp [msgsOf]) (by intro x hx; simp [msgsOf] at hx; subst hx; decide)
      _ _ ⟨by simp [msgsOf, appendMessage], by simp [List.Sorted]⟩
      ⟨by simp [msgsOf], by simp [List.Sorted]⟩

/-! ## Rate limiting middleware (lines 33-50)

`rateLimiter` is a per-identity map entry `{ count, resetAt }`.  On each
request: if an entry exists and `resetAt > now`, the request is denied with
a 429 when `count >= 100` (no later handler runs) and otherwise admitted
with `count++`; in every other case (no entry, or the window expired) the
entry is replaced by `{ count: 1, resetAt: now + 60000 }` and the request is
admitted. -/

structure RLEntry where
  count : Nat
  resetAt : Nat
deriving DecidableEq, Repr

/-- One pass through the middleware for one identity: the new map entry and
whether the request was admitted (`false` = the 429 response is returned
before any later handler runs). -/
def rlAdmit (limit : Option RLEntry) (now : Nat) : Option RLEntry × Bool :=
  match limit with
  | some l =>
    if now < l.resetAt then
      if 100 ≤ l.count then (some l, false)
      else (some ⟨l.count + 1, l.resetAt⟩, true)
    else (some ⟨1, now + 60000⟩, true)
  | none => (some ⟨1, now + 60000⟩, true)

/-- The middleware run over a sequence of request arrival times of one
identity. -/
def rlRun (limit : Option RLEntry) (ts : List Nat) : Option RLEntry × List Bool :=
  match ts with
  | [] => (limit, [])
  | t :: rest =>
    let s := rlAdmit limit t
    let r := rlRun s.1 rest
    (r.1, s.2 :: r.2)

theorem range_map_quota (n c : Nat) :
    (List.range (n + 1)).map (fun i => decide (c + i < 100))
      = decide (c < 100) :: (List.range n).map (fun i => decide (c + 1 + i < 100)) := by
  rw [List.range_succ_eq_map, List.map_cons, List.map_map]
  refine congrArg₂ _ (by simp) (List.map_congr_left ?_)
  intro i _
  exact decide_eq_decide.mpr (by simp [Function.comp]; omega)

theorem rlRun_in_window (ts : List Nat) :
    ∀ c R, c ≤ 100 → (∀ t ∈ ts, t < R) →
    rlRun (some ⟨c, R⟩) ts
      = (some ⟨min (c + ts.length) 100, R⟩,
         (List.range ts.length).map (fun i => decide (c + i < 100))) := by
  induction ts with
  | nil =>
    intro c R hc _
    simp only [rlRun, List.length_nil, List.range_zero, List.map_nil,
      Prod.mk.injEq, Option.some.injEq, RLEntry.mk.injEq]
    exact ⟨⟨by omega, trivial⟩, trivial⟩
  | cons t rest ih =>
    intro c R hc hw
    have ht : t < R := hw t (by simp)
    have hw' : ∀ x ∈ rest, x < R := fun x hx => hw x (by simp [hx])
    rw [List.length_cons, range_map_quota]
    by_cases h100 : 100 ≤ c
    · have hc' : c = 100 := by omega
      subst hc'
      have hs : rlAdmit (some ⟨100, R⟩) t = (some ⟨100, R⟩, false) := by
        simp [rlAdmit, ht]
      simp only [rlRun, hs]
      rw [ih 100 R (by omega) hw']
      simp only [Prod.mk.injEq, Option.some.injEq, RLEntry.mk.injEq, List.cons.injEq]
      refine ⟨⟨by omega, trivial⟩, by simp, List.map_congr_left ?_⟩
      intro i _
      exact decide_eq_decide.mpr (by omega)
    · have hs : rlAdmit (some ⟨c, R⟩) t = (some ⟨c + 1, R⟩, true) := by
        simp [rlAdmit, ht, h100]
      simp only [rlRun, hs]
      rw [ih (c + 1) R (by omega) hw']
      simp only [Prod.mk.injEq, Option.some.injEq, RLEntry.mk.injEq, List.cons.injEq]
      refine ⟨⟨by omega, trivial⟩, by simp; omega, trivial⟩

/-- C2. Fixed-window rate limiting per identity: starting from no entry, a
first request at `t0` is admitted and opens the window `[t0, t0 + 60000)`;
of the requests arriving inside that window, exactly the first 100 overall
(the opener plus the next 99) are admitted and every further one is denied
(the request `i` of `rest`, 0-indexed, is admitted iff `1 + i < 100`); a
request at `t' ≥ t0 + 60000` is admitted and starts a fresh window
`{ count: 1, resetAt: t' + 60000 }`. -/
theorem c2_rate_limiter_window (t0 t' : Nat) (rest : List Nat)
    (hw : ∀ t ∈ rest, t < t0 + 60000) (hreset : t0 + 60000 ≤ t') :
    (rlRun none (t0 :: rest)).2
        = true :: (List.range rest.length).map (fun i => decide (1 + i < 100))
    ∧ rlAdmit (rlRun none (t0 :: rest)).1 t' = (some ⟨1, t' + 60000⟩, true) := by
  have h1 : rlAdmit none t0 = (some ⟨1, t0 + 60000⟩, true) := rfl
  have h2 := rlRun_in_window rest 1 (t0 + 60000) (by omega) hw
  constructor
  · rw [rlRun, h1, h2]
  · rw [rlRun, h1, h2]
    simp only [rlAdmit]
    rw [if_neg (by omega)]

/-- C2 witness: 100 further requests inside the window opened at time 0 —
the opener and the next 99 are admitted, the 101st request is denied — and
a request at the reset time 60000 starts a fresh window. -/
theorem c2_rate_limiter_window_witness :
    ((∀ t ∈ List.replicate 100 1, t < 0 + 60000) ∧ 0 + 60000 ≤ 60000)
    ∧ (rlRun none (0 :: List.replicate 100 1)).2
        = true :: (List.range (List.replicate 100 1).length).map
            (fun i => decide (1 + i < 100))
    ∧ rlAdmit (rlRun none (0 :: List.replicate 100 1)).1 60000
        = (some ⟨1, 60000 + 60000⟩, true) := by
  refine ⟨⟨?_, ?_⟩, ?_⟩
  · decide
  · decide
  · exact c2_rate_limiter_window 0 60000 (List.replicate 100 1) (by decide) (by decide)

/-! ## Chat completions: user-message persistence (lines 217-227)

`POST /api/protected/chat/completions` reads `{ messages, model, sessionId }`
and, when `sessionId` is present, unconditionally inserts the last element
of `messages` as a new row — there is no check whether another turn of the
same session is still in flight, and no rejection path: the handler always
proceeds to the model call. -/

structure ChatMsg where
  role : String
  content : String
deriving DecidableEq, Repr

/-- Effect of lines 222-227 on the `messages` table: when a `sessionId` was
sent, the request's last message is inserted (fresh uuid `newId`,
`created_at = now`); otherwise the table is untouched.  The handler then
always continues with the model call — it has no rejected outcome. -/
def chatUserInsert (db : List MsgRow) (sessionId : Option String)
    (messages : List ChatMsg) (newId : String) (now : Nat) : List MsgRow :=
  match sessionId, messages.getLast? with
  | some sid, some userMsg => db ++ [⟨newId, sid, userMsg.role, userMsg.content, now⟩]
  | _, _ => db

/-- C3 (counterexample). A turn of session `"s"` is in flight: the user
message `m1` is persisted and no terminal assistant message exists yet.  A
second submit for `"s"` is not rejected — it changes the persisted history
by appending its user message. -/
theorem c3_turn_in_progress_cex :
    chatUserInsert [⟨"m1", "s", "user", "hi", 1⟩] (some "s")
        [⟨"user", "hi"⟩, ⟨"user", "again"⟩] "m2" 2
      = [⟨"m1", "s", "user", "hi", 1⟩, ⟨"m2", "s", "user", "again", 2⟩]
    ∧ chatUserInsert [⟨"m1", "s", "user", "hi", 1⟩] (some "s")
        [⟨"user", "hi"⟩, ⟨"user", "again"⟩] "m2" 2
      ≠ [⟨"m1", "s", "user", "hi", 1⟩] := by
  exact ⟨rfl, by decide⟩

/-- C3 (amended). The handler performs no in-flight-turn check: every submit
with a `sessionId`, also one issued while another turn of the same session
is still between its user-message insert and its terminal event, is
accepted, and its user message is appended to the session's persisted
history.  No `TurnInProgress` rejection exists in the code. -/
theorem c3_turn_in_progress_amended (db : List MsgRow) (sid : String)
    (ms : List ChatMsg) (m : ChatMsg) (newId : String) (now : Nat) :
    chatUserInsert db (some sid) (ms ++ [m]) newId now
      = db ++ [⟨newId, sid, m.role, m.content, now⟩] := by
  simp [chatUserInsert, List.getLast?_concat]

/-! ## SSE decode loop (lines 262-290)

The handler reads the Gemini response body chunk by chunk:

    buffer += decoder.decode(value, { stream: true });
    const lines = buffer.split('\n');
    buffer = lines.pop() || '';
    for (const line of lines)
      if (line.trim() && line.startsWith('data: ')) {
        const data = line.slice(6);
        await stream.writeSSE({ data });
        ...
      }

When the reader reports `done` the loop breaks; the leftover `buffer` is
discarded.  Chunks are modelled as lists of characters (the `TextDecoder`
reassembles split multi-byte sequences before they reach `buffer`). -/

/-- `buffer.split('\n')`.  Splitting the empty string gives `[""]`, as in
JavaScript. -/
def splitNl : List Char → List (List Char)
  | [] => [[]]
  | c :: cs =>
    if c = '\n' then [] :: splitNl cs
    else
      match splitNl cs with
      | [] => [[c]]
      | l :: ls => (c :: l) :: ls

/-- `line.trim()` (drop leading and trailing whitespace). -/
def jsTrim (s : List Char) : List Char :=
  ((s.dropWhile Char.isWhitespace).reverse.dropWhile Char.isWhitespace).reverse

/-- The literal `'data: '`. -/
def dataMarker : List Char := ['d', 'a', 't', 'a', ':', ' ']

/-- The guard and slice of lines 278-280: a completed line is emitted as an
SSE event iff it is non-blank and starts with `'data: '`; the emitted
payload is `line.slice(6)`. -/
def emitLine (line : List Char) : Option (List Char) :=
  if !(jsTrim line).isEmpty && dataMarker.isPrefixOf line
  then some (line.drop 6) else none

/-- One iteration of the `while` loop on one chunk: append the chunk to the
buffer, split on newlines, keep the last (incomplete) part as the new
buffer, and emit the payloads of the complete lines in order. -/
def stepChunk (st : List Char × List (List Char)) (chunk : List Char) :
    List Char × List (List Char) :=
  ((splitNl (st.1 ++ chunk)).getLastD [],
   st.2 ++ (splitNl (st.1 ++ chunk)).dropLast.filterMap emitLine)

/-- The whole read loop over a finite sequence of chunks, starting from an
empty buffer; the final buffer is discarded when `done` is reported. -/
def decodeEvents (chunks : List (List Char)) : List (List Char) :=
  (chunks.foldl stepChunk ([], [])).2

theorem splitNl_ne_nil (s : List Char) : splitNl s ≠ [] := by
  match s with
  | [] => simp [splitNl]
  | c :: cs =>
    rw [splitNl]
    split
    · simp
    · match h : splitNl cs with
      | [] => simp
      | l :: ls => simp

theorem splitNl_cons_nl (cs : List Char) :
    splitNl ('\n' :: cs) = [] :: splitNl cs := by
  rw [splitNl, if_pos rfl]

theorem splitNl_cons_of_ne (c : Char) (cs : List Char) (h : ¬c = '\n') :
    splitNl (c :: cs) = (c :: (splitNl cs).headD []) :: (splitNl cs).tail := by
  rw [splitNl, if_neg h]
  match hs : splitNl cs with
  | [] => exact absurd hs (splitNl_ne_nil cs)
  | l :: ls => simp

theorem getLastD_append_right {α : Type} (l₁ l₂ : List α) (d : α) (h : l₂ ≠ []) :
    (l₁ ++ l₂).getLastD d = l₂.getLastD d := by
  rw [List.getLastD_eq_getLast?, List.getLastD_eq_getLast?,
    List.getLast?_append_of_ne_nil l₁ h]

/-- Splitting `a ++ b` splits `a` first, then continues from `a`'s trailing
incomplete part. -/
theorem splitNl_append (a b : List Char) :
    splitNl (a ++ b)
      = (splitNl a).dropLast ++ splitNl ((splitNl a).getLastD [] ++ b) := by
  induction a with
  | nil => simp [splitNl]
  | cons c cs ih =>
    by_cases hc : c = '\n'
    · subst hc
      rw [List.cons_append, splitNl_cons_nl, splitNl_cons_nl,
        List.dropLast_cons_of_ne_nil (splitNl_ne_nil cs), List.getLastD_cons, ih]
      simp
    · rw [List.cons_append, splitNl_cons_of_ne c _ hc, splitNl_cons_of_ne c cs hc, ih]
      match hs : splitNl cs with
      | [] => exact absurd hs (splitNl_ne_nil cs)
      | [rl] => simp [splitNl_cons_of_ne c _ hc]
      | rl :: rl2 :: rls => simp [List.getLastD_cons]

/-- Processing chunk `a` and then chunk `b` is processing `a ++ b`. -/
theorem stepChunk_append (st : List Char × List (List Char)) (a b : List Char) :
    stepChunk (stepChunk st a) b = stepChunk st (a ++ b) := by
  obtain ⟨buf, out⟩ := st
  have hq := splitNl_ne_nil ((splitNl (buf ++ a)).getLastD [] ++ b)
  simp only [stepChunk, ← List.append_assoc]
  rw [splitNl_append (buf ++ a) b]
  simp only [Prod.mk.injEq]
  constructor
  · rw [getLastD_append_right _ _ _ hq]
  · rw [List.dropLast_append_of_ne_nil _ hq, List.filterMap_append, List.append_assoc]

theorem splitNl_eq_single (s : List Char) (h : ∀ c ∈ s, ¬c = '\n') :
    splitNl s = [s] := by
  induction s with
  | nil => rfl
  | cons c cs ih =>
    rw [splitNl_cons_of_ne c cs (h c (by simp)),
      ih (fun x hx => h x (by simp [hx]))]
    rfl

theorem splitNl_getLastD_nl_free (s : List Char) :
    ∀ c ∈ (splitNl s).getLastD [], ¬c = '\n' := by
  induction s with
  | nil => simp [splitNl]
  | cons c cs ih =>
    by_cases hc : c = '\n'
    · subst hc
      rw [splitNl_cons_nl, List.getLastD_cons]
      exact ih
    · rw [splitNl_cons_of_ne c cs hc]
      match hs : splitNl cs with
      | [] => exact absurd hs (splitNl_ne_nil cs)
      | [rl] =>
        rw [hs] at ih
        simp only [List.headD, List.tail, List.getLastD]
        intro x hx
        rcases List.mem_cons.mp hx with h | h
        · subst h; exact hc
        · exact ih x (by simpa using h)
      | rl :: rl2 :: rls =>
        rw [hs] at ih
        simp only [List.headD, List.tail, List.getLastD_cons] at ih ⊢
        exact ih

/-- The read loop over a chunk list, started on a newline-free buffer, is
one `stepChunk` on the concatenation of the chunks. -/
theorem foldl_stepChunk_join (chunks : List (List Char)) :
    ∀ (buf : List Char) (out : List (List Char)), (∀ c ∈ buf, ¬c = '\n') →
    chunks.foldl stepChunk (buf, out) = stepChunk (buf, out) chunks.flatten := by
  induction chunks with
  | nil =>
    intro buf out hbuf
    simp [stepChunk, splitNl_eq_single buf hbuf]
  | cons ch chs ih =>
    intro buf out hbuf
    rw [List.foldl_cons]
    have hst : stepChunk (buf, out) ch
        = ((splitNl (buf ++ ch)).getLastD [],
           out ++ (splitNl (buf ++ ch)).dropLast.filterMap emitLine) := rfl
    rw [hst, ih _ _ (splitNl_getLastD_nl_free (buf ++ ch)), ← hst,
      stepChunk_append, List.flatten_cons]

/-- C4. Chunking invariance of the SSE decode loop: running the loop over
any finite partition of the backend's byte stream into chunks emits exactly
the same `data:` payload lines, in the same order, as running it over the
whole stream as one contiguous buffer.  (In particular the partition into
1-byte chunks, which is a partition of the same concatenation.) -/
theorem c4_decode_chunk_invariant (chunks : List (List Char)) :
    decodeEvents chunks = decodeEvents [chunks.flatten] := by
  unfold decodeEvents
  rw [foldl_stepChunk_join chunks [] [] (by simp)]
  simp only [List.foldl_cons, List.foldl_nil]

/-! ## Per-frame processing and the assistant insert (lines 277-302)

Each completed `data:` payload line is forwarded verbatim with
`stream.writeSSE({ data })`, then `JSON.parse`d inside a `try { ... }
catch {}`: a malformed payload is silently ignored, a well-formed one
contributes `candidates[0].content.parts[0].text` (when present) to
`fullResponse`.  After the read loop, when a `sessionId` was sent and
`fullResponse` is non-empty, one assistant row holding `fullResponse` is
inserted; nothing further is emitted on the stream. -/

/-- One `data:` payload line as the handler sees it: the raw payload that is
forwarded, whether `JSON.parse` throws on it, and the extracted
`candidates[0].content.parts[0].text` when the parse succeeds and the field
is present. -/
structure Frame where
  raw : String
  malformed : Bool
  text : Option String
deriving DecidableEq, Repr

/-- The text a frame contributes to `fullResponse`: nothing when
`JSON.parse` throws (the empty `catch` block), otherwise the extracted
text field when present. -/
def frameText (f : Frame) : Option String :=
  if f.malformed then none else f.text

/-- The `fullResponse` accumulator over the frames of one turn, in emission
order. -/
def fullResponse (frames : List Frame) : String :=
  frames.foldl
    (fun acc f => match frameText f with | some t => acc ++ t | none => acc) ""

/-- Everything the handler writes to the SSE stream during one successful
turn: each payload is forwarded verbatim (line 280); after the read loop no
further event is emitted (lines 291-307 only write to the database). -/
def turnEmissions (frames : List Frame) : List String :=
  frames.map (fun f => f.raw)

/-- How many frames of the turn were skipped by the empty `catch`. -/
def skippedFrames (frames : List Frame) : Nat :=
  (frames.filter (fun f => f.malformed)).length

/-- The assistant rows inserted for one turn (lines 293-297): one row
holding `fullResponse` when a `sessionId` was sent and `fullResponse` is
truthy (non-empty), none otherwise. -/
def assistantInserts (sessionId : Option String) (frames : List Frame)
    (newId : String) (now : Nat) : List MsgRow :=
  match sessionId with
  | some sid =>
    if fullResponse frames = "" then []
    else [⟨newId, sid, "assistant", fullResponse frames, now⟩]
  | none => []

theorem fullResponse_eq_join (frames : List Frame) :
    fullResponse frames = String.join (frames.filterMap frameText) := by
  have h : ∀ (fs : List Frame) (acc : String),
      fs.foldl (fun acc f => match frameText f with
        | some t => acc ++ t | none => acc) acc
        = acc ++ String.join (fs.filterMap frameText) := by
    intro fs
    induction fs with
    | nil => intro acc; simp [String.join]
    | cons f fs ih =>
      intro acc
      rw [List.foldl_cons, List.filterMap_cons]
      match frameText f with
      | some t =>
        dsimp only
        rw [ih]
        have hj : String.join (t :: fs.filterMap frameText)
            = t ++ String.join (fs.filterMap frameText) := by
          simp [String.join_eq, String.ext_iff]
        rw [hj, String.append_assoc]
      | none => rw [ih]
  rw [fullResponse, h, String.empty_append]

/-- C5 (counterexample). A turn of session `"s"` whose stream yields no
text: `fullResponse` is empty and the handler inserts zero assistant
messages for the turn, not exactly one. -/
theorem c5_assistant_cex :
    assistantInserts (some "s") [] "a1" 7 = []
    ∧ (assistantInserts (some "s") [] "a1" 7).length ≠ 1 := by
  exact ⟨rfl, by decide⟩

/-- C5 (amended). For every turn given a `sessionId`: never two assistant
rows; when the concatenated text of the turn is non-empty, exactly one
assistant row is inserted whose content is the concatenation of the decoded
text deltas in emission order; when the turn yields no text, no assistant
row is inserted. -/
theorem c5_assistant_amended (sid : String) (frames : List Frame)
    (newId : String) (now : Nat) :
    (assistantInserts (some sid) frames newId now).length ≤ 1
    ∧ assistantInserts (some sid) frames newId now
        = (if fullResponse frames = "" then []
           else [⟨newId, sid, "assistant",
                  String.join (frames.filterMap frameText), now⟩]) := by
  constructor
  · rw [assistantInserts]
    split <;> simp
  · rw [assistantInserts, fullResponse_eq_join]

/-- C7 (counterexample). Take the two-frame turn `A` whose first frame
`"x"` is malformed and whose second frame `"y"` decodes to text `"hi"`, and
the turn `B` identical except that `"x"` parses (to a frame with no text).
Decoding of `A` continues past the malformed frame (`fullResponse A = "hi"`),
but everything the handler emits is the two raw payloads — identical for
`A` and `B` although `A` skipped one frame and `B` none.  No terminal event
exists, so no terminal event carries the count of skipped frames. -/
theorem c7_skip_count_cex :
    turnEmissions [⟨"x", true, none⟩, ⟨"y", false, some "hi"⟩] = ["x", "y"]
    ∧ turnEmissions [⟨"x", true, none⟩, ⟨"y", false, some "hi"⟩]
        = turnEmissions [⟨"x", false, none⟩, ⟨"y", false, some "hi"⟩]
    ∧ fullResponse [⟨"x", true, none⟩, ⟨"y", false, some "hi"⟩] = "hi"
    ∧ skippedFrames [⟨"x", true, none⟩, ⟨"y", false, some "hi"⟩] = 1
    ∧ skippedFrames [⟨"x", false, none⟩, ⟨"y", false, some "hi"⟩] = 0 := by
  refine ⟨rfl, rfl, ?_, rfl, rfl⟩
  rfl

/-- C7 (amended). A malformed frame is skipped and decoding continues with
the remaining frames (a single bad line never aborts the turn): the
malformed frame contributes nothing to `fullResponse`, is still forwarded,
and the rest of the turn is processed unchanged.  But the handler surfaces
no count of skipped frames: it emits exactly the raw payload lines and no
terminal event at all. -/
theorem c7_skip_count_amended (raw : String) (t : Option String)
    (rest : List Frame) :
    turnEmissions (⟨raw, true, t⟩ :: rest) = raw :: turnEmissions rest
    ∧ fullResponse (⟨raw, true, t⟩ :: rest) = fullResponse rest
    ∧ skippedFrames (⟨raw, true, t⟩ :: rest) = skippedFrames rest + 1
    ∧ turnEmissions rest = rest.map (fun f => f.raw) := by
  refine ⟨rfl, ?_, ?_, rfl⟩
  · rw [fullResponse, fullResponse, List.foldl_cons]
    rfl
  · simp [skippedFrames, List.filter_cons]

/-! ## The model call of a turn (lines 236-260)

The handler body contains a single `fetch` of
`models/:model:streamGenerateContent` with the server-side tools
`googleSearch` and `codeExecution` declared; the fetch is not inside any
loop, no decoded frame is inspected for tool-call requests, and the backend
is never re-invoked, so a turn consists of exactly one model call whose
stream is forwarded verbatim. -/

/-- One turn of the chat-completions handler against a model backend (a
function from the request history to the frames of its response stream):
the events written to the client and the number of model-backend calls the
handler makes — one, by the shape of the handler body (a single `fetch`,
lines 238-260, reaching the decode loop once). -/
def chatTurn (backend : List ChatMsg → List Frame) (messages : List ChatMsg) :
    List String × Nat :=
  (turnEmissions (backend messages), 1)

/-- A backend that requests a tool call on every round, indefinitely: every
frame of every response is a server-side tool-call marker and none carries
text. -/
def alwaysToolsBackend : List ChatMsg → List Frame :=
  fun _ => [⟨"toolcallframe", false, none⟩, ⟨"toolcallframe", false, none⟩]

/-- C8 (counterexample). Against the backend that requests tools on every
round indefinitely, the turn makes exactly one model call — there are no
Generating/AwaitingTools round trips at all, bounded or not — and the
events it emits are the backend's two frames verbatim: no `TurnComplete`
event and no bound-was-hit flag is ever emitted. -/
theorem c8_tool_loop_cex :
    chatTurn alwaysToolsBackend [⟨"user", "hi"⟩]
      = (["toolcallframe", "toolcallframe"], 1) := by
  rfl

/-- C8 (amended). For every model backend and request, the handler performs
exactly one model call (zero client-side tool round trips, hence trivially
no more than 3, and it never loops forever: the emitted event list is as
finite as the backend's stream), and what it emits is the backend's payload
lines verbatim — it appends no `TurnComplete` event and no flag. -/
theorem c8_tool_loop_amended (backend : List ChatMsg → List Frame)
    (messages : List ChatMsg) :
    (chatTurn backend messages).2 = 1
    ∧ (chatTurn backend messages).2 ≤ 3
    ∧ (chatTurn backend messages).1 = (backend messages).map (fun f => f.raw)
    ∧ (chatTurn backend messages).1.length = (backend messages).length := by
  exact ⟨rfl, by show (1 : Nat) ≤ 3; decide, rfl, List.length_map _ _⟩

/-! ## WebSocket fan-out in `ChatDurableObject` (lines 494-506)

On an incoming message the Durable Object iterates `this.sessions`
(a `Map`, iterated in insertion order) and calls `socket.send(...)` on
every connection of the same `sessionId`:

    this.sessions.forEach((s, socket) => {
      if (s.sessionId === sessionId) { socket.send(...) }
    });

There is no try/catch: an exception thrown by one `send` propagates out of
`forEach`, which stops the iteration; the failing socket is not removed
from `this.sessions`. -/

/-- A joined connection: its identity, its session, and whether its
`send` throws. -/
structure Conn where
  id : Nat
  sessionId : String
  failsOnSend : Bool
deriving DecidableEq, Repr

/-- The `sessions.forEach` broadcast: returns the ids of the connections
the event was delivered to, in iteration order, and whether an exception
escaped (aborting the iteration at the throwing connection).  The
`sessions` map itself is not mutated by the handler. -/
def broadcastSend : List Conn → String → List Nat × Bool
  | [], _ => ([], false)
  | c :: rest, sid =>
    if c.sessionId == sid then
      if c.failsOnSend then ([], true)
      else
        ((c.id :: (broadcastSend rest sid).1), (broadcastSend rest sid).2)
    else broadcastSend rest sid

/-- C6 (counterexample). Three connections joined to session `"s"` in this
order; the second one throws on `send`.  The event is delivered only to
connection 1: connection 3 — a joined connection different from the failing
one — does not receive it, and the error escapes to the publisher. -/
theorem c6_broadcast_cex :
    broadcastSend [⟨1, "s", false⟩, ⟨2, "s", true⟩, ⟨3, "s", false⟩] "s"
      = ([1], true)
    ∧ 3 ∉ (broadcastSend [⟨1, "s", false⟩, ⟨2, "s", true⟩, ⟨3, "s", false⟩] "s").1 := by
  exact ⟨rfl, by decide⟩

/-- C6 (amended). Publishing to the joined connections of a session
delivers the event exactly to the session's connections that precede (in
map insertion order) its first connection whose `send` throws: delivery
stops at the first failing connection, every connection after it receives
nothing, the error propagates to the publisher (the `forEach` has no
try/catch), and the failing connection is not dropped from the map. -/
theorem c6_broadcast_amended (conns : List Conn) (sid : String) :
    broadcastSend conns sid
      = (((conns.filter (fun c => c.sessionId == sid)).takeWhile
            (fun c => !c.failsOnSend)).map (fun c => c.id),
         (conns.filter (fun c => c.sessionId == sid)).any
            (fun c => c.failsOnSend)) := by
  induction conns with
  | nil => rfl
  | cons c rest ih =>
    rw [broadcastSend, List.filter_cons]
    by_cases hs : c.sessionId == sid
    · rw [if_pos hs, if_pos hs, List.takeWhile_cons, List.any_cons]
      by_cases hf : c.failsOnSend
      · simp [hf]
      · simp only [hf, Bool.not_false, if_true, if_neg, List.map_cons, ih]
        simp [hf]
    · rw [if_neg hs, if_neg hs, ih]

/-! ## DELETE /api/protected/sessions/:id (lines 352-365)

Two statements run unconditionally, one after the other:

    DELETE FROM sessions WHERE id = ? AND user_id = ?
    DELETE FROM messages WHERE session_id = ?

The session row is removed only when it belongs to the caller, but the
second delete is not scoped to the caller at all. -/

structure SessionRow where
  id : String
  user_id : String
  title : String
  created_at : Nat
  updated_at : Nat
deriving DecidableEq, Repr

structure ChatDb where
  sessions : List SessionRow
  messages : List MsgRow
deriving DecidableEq, Repr

/-- The delete-session handler: `userId` is the authenticated caller,
`sessionId` the path parameter. -/
def deleteSessionHandler (db : ChatDb) (userId sessionId : String) : ChatDb :=
  ⟨db.sessions.filter (fun s => !(s.id == sessionId && s.user_id == userId)),
   db.messages.filter (fun m => !(m.session_id == sessionId))⟩

/-- C9. The delete-session operation removes the `sessions` row only when
it belongs to the caller, but removes every `messages` row of the session
unconditionally: a caller `u` who does not own session `s` leaves the
owner's session row in place (and every other session row, and every
message of other sessions), yet erases all of `s`'s messages. -/
theorem c9_delete_session (db : ChatDb) (u s : String) :
    (∀ r ∈ db.sessions, r.id = s → r.user_id ≠ u →
        r ∈ (deleteSessionHandler db u s).sessions)
    ∧ (∀ r ∈ db.sessions, r.id = s → r.user_id = u →
        r ∉ (deleteSessionHandler db u s).sessions)
    ∧ (∀ m ∈ (deleteSessionHandler db u s).messages, m.session_id ≠ s)
    ∧ (∀ m ∈ db.messages, m.session_id ≠ s →
        m ∈ (deleteSessionHandler db u s).messages)
    ∧ (∀ r ∈ (deleteSessionHandler db u s).sessions, r ∈ db.sessions)
    ∧ (∀ m ∈ (deleteSessionHandler db u s).messages, m ∈ db.messages) := by
  refine ⟨?_, ?_, ?_, ?_, ?_, ?_⟩
  · intro r hr hid hu
    simp only [deleteSessionHandler, List.mem_filter]
    refine ⟨hr, ?_⟩
    simp [hid, hu]
  · intro r hr hid hu
    simp only [deleteSessionHandler, List.mem_filter]
    simp [hid, hu]
  · intro m hm
    simp only [deleteSessionHandler, List.mem_filter] at hm
    simpa using hm.2
  · intro m hm hs
    simp only [deleteSessionHandler, List.mem_filter]
    exact ⟨hm, by simpa using hs⟩
  · intro r hr
    exact (List.mem_filter.mp hr).1
  · intro m hm
    exact (List.mem_filter.mp hm).1

/-- C9 witness: caller `"bob"` deletes session `"s1"` owned by `"alice"`;
`"alice"`'s session row survives, all of `"s1"`'s messages are erased. -/
theorem c9_delete_session_witness :
    ((⟨"s1", "alice", "t", 1, 1⟩ : SessionRow)
        ∈ (⟨[⟨"s1", "alice", "t", 1, 1⟩], [⟨"m1", "s1", "user", "hi", 1⟩]⟩ : ChatDb).sessions
      ∧ (⟨"s1", "alice", "t", 1, 1⟩ : SessionRow).id = "s1"
      ∧ (⟨"s1", "alice", "t", 1, 1⟩ : SessionRow).user_id ≠ "bob")
    ∧ (⟨"s1", "alice", "t", 1, 1⟩ : SessionRow)
        ∈ (deleteSessionHandler
            ⟨[⟨"s1", "alice", "t", 1, 1⟩], [⟨"m1", "s1", "user", "hi", 1⟩]⟩
            "bob" "s1").sessions
    ∧ (∀ m ∈ (deleteSessionHandler
            ⟨[⟨"s1", "alice", "t", 1, 1⟩], [⟨"m1", "s1", "user", "hi", 1⟩]⟩
            "bob" "s1").messages, m.session_id ≠ "s1") := by
  refine ⟨⟨by decide, rfl, by decide⟩, ?_, ?_⟩
  · exact (c9_delete_session
      ⟨[⟨"s1", "alice", "t", 1, 1⟩], [⟨"m1", "s1", "user", "hi", 1⟩]⟩
      "bob" "s1").1 ⟨"s1", "alice", "t", 1, 1⟩ (by decide) rfl (by decide)
  · exact (c9_delete_session
      ⟨[⟨"s1", "alice", "t", 1, 1⟩], [⟨"m1", "s1", "user", "hi", 1⟩]⟩
      "bob" "s1").2.2.1

/-! ## POST /api/protected/files/upload (lines 381-401)

After the missing-file check, a file with `size > 10 * 1024 * 1024` is
rejected with `{ error: 'File too large' }` and status 400 before any
write; otherwise the body is put into R2 under
`key = userId + '/' + Date.now() + '-' + file.name`, one `files` row is
inserted with `r2_key = key`, and the response carries
`url = '/api/files/' + key`. -/

structure UploadedFile where
  name : String
  mime : String
  size : Nat
deriving DecidableEq, Repr

structure BlobEntry where
  key : String
  userId : String
  contentType : String
deriving DecidableEq, Repr

structure FileRow where
  id : String
  user_id : String
  filename : String
  mime_type : String
  size : Nat
  r2_key : String
  created_at : Nat
deriving DecidableEq, Repr

structure UploadState where
  blobs : List BlobEntry
  fileRows : List FileRow
deriving DecidableEq, Repr

inductive UploadOutcome where
  | err (msg : String) (status : Nat)
  | ok (fileId : String) (url : String) (name : String) (mime : String)
deriving DecidableEq, Repr

/-- The R2 object key of line 389. -/
def uploadKey (userId : String) (now : Nat) (name : String) : String :=
  userId ++ "/" ++ toString now ++ "-" ++ name

/-- The upload handler: `fileId` is the fresh uuid of line 395, `now` is
`Date.now()`. -/
def uploadHandler (st : UploadState) (userId : String)
    (file : Option UploadedFile) (now : Nat) (fileId : String) :
    UploadState × UploadOutcome :=
  match file with
  | none => (st, .err "No file" 400)
  | some f =>
    if 10 * 1024 * 1024 < f.size then (st, .err "File too large" 400)
    else
      (⟨st.blobs ++ [⟨uploadKey userId now f.name, userId, f.mime⟩],
        st.fileRows ++ [⟨fileId, userId, f.name, f.mime, f.size,
                         uploadKey userId now f.name, now⟩]⟩,
       .ok fileId ("/api/files/" ++ uploadKey userId now f.name) f.name f.mime)

/-- C10. A file larger than `10 * 1024 * 1024` bytes is rejected with the
error `'File too large'` and status 400, with no blob-store write and no
database insert (the state is returned unchanged); a file within the limit
stores exactly one blob and inserts exactly one `files` row, both under the
same key, and the returned url is `'/api/files/' + key`. -/
theorem c10_upload (st : UploadState) (userId : String) (f : UploadedFile)
    (now : Nat) (fileId : String) :
    (10 * 1024 * 1024 < f.size →
      uploadHandler st userId (some f) now fileId = (st, .err "File too large" 400))
    ∧ (f.size ≤ 10 * 1024 * 1024 →
      (uploadHandler st userId (some f) now fileId).1.blobs
          = st.blobs ++ [⟨uploadKey userId now f.name, userId, f.mime⟩]
      ∧ (uploadHandler st userId (some f) now fileId).1.fileRows
          = st.fileRows ++ [⟨fileId, userId, f.name, f.mime, f.size,
                             uploadKey userId now f.name, now⟩]
      ∧ (uploadHandler st userId (some f) now fileId).2
          = .ok fileId ("/api/files/" ++ uploadKey userId now f.name) f.name f.mime) := by
  constructor
  · intro h
    rw [uploadHandler, if_pos h]
  · intro h
    have hn : ¬(10 * 1024 * 1024 < f.size) := by omega
    rw [uploadHandler, if_neg hn]
    exact ⟨rfl, rfl, rfl⟩

/-- C10 witness: an oversized file (10 MiB + 1 byte) is rejected with the
state unchanged, and a 3-byte file is stored with matching key and url. -/
theorem c10_upload_witness :
    (10 * 1024 * 1024 < (⟨"big.bin", "b", 10485761⟩ : UploadedFile).size
      ∧ uploadHandler ⟨[], []⟩ "u" (some ⟨"big.bin", "b", 10485761⟩) 4 "f1"
          = (⟨[], []⟩, .err "File too large" 400))
    ∧ ((⟨"a.txt", "text", 3⟩ : UploadedFile).size ≤ 10 * 1024 * 1024
      ∧ (uploadHandler ⟨[], []⟩ "u" (some ⟨"a.txt", "text", 3⟩) 4 "f2").1.blobs
          = [] ++ [⟨uploadKey "u" 4 "a.txt", "u", "text"⟩]
      ∧ (uploadHandler ⟨[], []⟩ "u" (some ⟨"a.txt", "text", 3⟩) 4 "f2").1.fileRows
          = [] ++ [⟨"f2", "u", "a.txt", "text", 3, uploadKey "u" 4 "a.txt", 4⟩]
      ∧ (uploadHandler ⟨[], []⟩ "u" (some ⟨"a.txt", "text", 3⟩) 4 "f2").2
          = .ok "f2" ("/api/files/" ++ uploadKey "u" 4 "a.txt") "a.txt" "text") := by
  refine ⟨⟨by decide, ?_⟩, by decide, ?_, ?_, ?_⟩
  · exact (c10_upload ⟨[], []⟩ "u" ⟨"big.bin", "b", 10485761⟩ 4 "f1").1 (by decide)
  all_goals
    have h := (c10_upload ⟨[], []⟩ "u" ⟨"a.txt", "text", 3⟩ 4 "f2").2 (by decide)
  · exact h.1
  · exact h.2.1
  · exact h.2.2
